import Mathlib

/-
Shallow embedding of the `repeat` X11 clipboard-history daemon.
Sources embedded: src/db.rs (history store), src/clipboard.rs (selection
engine), src/ui/window.rs (picker), src/rpc.rs and src/main.rs (control
plane dispatch).  External collaborators (the X11 transport, the fuzzy
scorer from the fuzzy_matcher crate, Rust's String::from_utf8_lossy and
UTF-8 encoding) are modelled as parameters or kept abstract.
-/

namespace RepeatSpec

/-- Helper for Rust `str::contains`: the chars of the first list occur at the
head of the second list. -/
def isPref : List Char → List Char → Bool
  | [], _ => true
  | _ :: _, [] => false
  | a :: xs, b :: ys => a == b && isPref xs ys

/-- Helper for Rust `str::contains`: the chars of `small` occur contiguously
somewhere inside the second list. -/
def isSub (small : List Char) : List Char → Bool
  | [] => isPref small []
  | b :: bs => isPref small (b :: bs) || isSub small bs

/-- Rust `big.contains(small)` on strings (contiguous substring test). -/
def strContains (big small : String) : Bool := isSub small.data big.data

/-- src/db.rs enum Source. -/
inductive Source
  | Primary
  | Secondary
  | Clipboard
deriving DecidableEq, Repr

/-- src/db.rs enum ClipContents (only the Text variant exists). -/
inductive ClipContents
  | Text (s : String)
deriving DecidableEq, Repr

/-- src/db.rs struct Clip. -/
structure Clip where
  source : Source
  contents : ClipContents
deriving DecidableEq, Repr

/-- src/db.rs ClipContents::contains: `my_str.contains(their_str)`. -/
def ClipContents.contains : ClipContents → ClipContents → Bool
  | .Text my, .Text their => strContains my their

/-- src/db.rs ClipContents::equal (String equality). -/
def ClipContents.equal : ClipContents → ClipContents → Bool
  | .Text my, .Text their => my == their

/-- src/db.rs Clip::contains. -/
def Clip.contains (self other : Clip) : Bool :=
  self.contents.contains other.contents

/-- src/db.rs const MAX_CLIPS. -/
def MAX_CLIPS : Nat := 100

/-- src/db.rs struct Database.  The VecDeque is a list with the head (oldest
clip) at the front and the tail (newest clip) at the back; the mutexes and
atomics guarding the three fields are irrelevant to the single-threaded
event-loop model. -/
structure Database where
  clips : List Clip
  selection : Option Clip
  start_idx : Nat
deriving DecidableEq, Repr

/-- src/db.rs Database::new. -/
def Database.new : Database := ⟨[], none, 0⟩

/-- The `let replace = match clips.back() ...` test in Database::add_clip. -/
def replaceTail (clips : List Clip) (clip : Clip) : Bool :=
  match clips.getLast? with
  | none => false
  | some latest_clip => clip.contains latest_clip

/-- src/db.rs Database::add_clip: pop the tail if the new clip contains it,
return none if the remaining ring holds contents-equal entries, else push at
the tail, evicting the head (and bumping start_idx) past MAX_CLIPS, and
return the new clip's logical index. -/
def Database.add_clip (db : Database) (clip : Clip) : Database × Option Nat :=
  let clips1 := if replaceTail db.clips clip then db.clips.dropLast else db.clips
  if clips1.any (fun c => c.contents.equal clip.contents) then
    ({ db with clips := clips1 }, none)
  else
    let clips2 := clips1 ++ [clip]
    if clips2.length > MAX_CLIPS then
      ({ db with clips := clips2.tail, start_idx := db.start_idx + 1 },
        some (clips2.tail.length + (db.start_idx + 1) - 1))
    else
      ({ db with clips := clips2 }, some (clips2.length + db.start_idx - 1))

/-- src/db.rs Database::at (named atIdx since `at` is reserved in Lean). -/
def Database.atIdx (db : Database) (idx : Nat) : Option Clip :=
  if idx < db.start_idx then none else db.clips.get? (idx - db.start_idx)

/-- src/db.rs Database::select. -/
def Database.select (db : Database) (idx : Nat) : Database × Bool :=
  match db.atIdx idx with
  | none => (db, false)
  | some clip => ({ db with selection := some clip }, true)

/-- src/db.rs Database::select_clip. -/
def Database.select_clip (db : Database) (clip : Clip) : Database :=
  { db with selection := some clip }

/-- Fuzzy score of one clip: src/db.rs Database::search's filter_map body.
The scorer `fm` stands for fuzzy_matcher::clangd::fuzzy_match (external
crate), called as fuzzy_match(content, pattern). -/
def clipScore (fm : String → String → Option Int) (pattern : String)
    (c : Clip) : Option Int :=
  match c.contents with
  | .Text content => fm content pattern

/-- Stable insertion (ascending by score) used to model Rust's stable
`sort_by_key`: an element coming later in the original list is placed after
all already-placed elements with a key less than or equal to its own. -/
def insertByScore (x : Nat × Int) : List (Nat × Int) → List (Nat × Int)
  | [] => [x]
  | y :: ys => if x.2 ≤ y.2 then x :: y :: ys else y :: insertByScore x ys

/-- Stable ascending sort by score, modelling `matched_clips.sort_by_key`. -/
def sortByScore : List (Nat × Int) → List (Nat × Int)
  | [] => []
  | x :: xs => insertByScore x (sortByScore xs)

/-- src/db.rs Database::search up to the sort: the enumerated, fuzzy-matched
(index, score) pairs, stably sorted ascending by score. -/
def Database.searchRanked (db : Database) (fm : String → String → Option Int)
    (pattern : String) : List (Nat × Int) :=
  sortByScore
    ((db.clips.enum).filterMap
      (fun p => (clipScore fm pattern p.2).map (fun score => (p.1, score))))

/-- src/db.rs Database::search: reverse the ascending sort (descending
scores, later ring positions first among ties), take `mx`, and map the ring
positions back to clips. -/
def Database.search (db : Database) (fm : String → String → Option Int)
    (pattern : String) (mx : Nat) : List Clip :=
  (((db.searchRanked fm pattern).reverse).take mx).filterMap
    (fun p => db.clips.get? p.1)

/-- The ascending rank order established by the stable sort on pairs with
strictly increasing first components: strictly smaller score, or equal score
and strictly smaller (older) ring position. -/
def ascRank (x y : Nat × Int) : Prop :=
  x.2 < y.2 ∨ (x.2 = y.2 ∧ x.1 < y.1)

/-! Selection engine (src/clipboard.rs).  X11 atoms and window ids are u32
values, modelled as Nat.  The engine's effect on the X11 connection is
modelled as the list of requests it emits. -/

/-- X11 atoms (u32 on the wire). -/
abbrev Atom := Nat

/-- src/clipboard.rs enum GetState: an outstanding conversion, keyed by the
reply property (the payload repeats the key). -/
inductive GetState
  | GetTargets (a : Atom)
  | GetText (a : Atom)
deriving DecidableEq, Repr

/-- The engine state from src/clipboard.rs struct Clipboard: the getter and
setter window ids and the outstanding-conversion table (a HashMap, modelled
as an association list).  The atom cache and the Database handle are passed
to the handlers explicitly; note there is no paused field. -/
structure ClipboardState where
  getter : Nat
  setter : Nat
  get_states : List (Atom × GetState)
deriving DecidableEq, Repr

/-- xproto::PropMode. -/
inductive PropMode
  | Replace
  | Prepend
  | Append
deriving DecidableEq, Repr

/-- Property payload: raw bytes, or a Rust String whose UTF-8 encoding is
the external `Vec::from(String)` step. -/
inductive PropData
  | bytes (l : List Nat)
  | str (s : String)
deriving DecidableEq, Repr

/-- Fields of xproto::SelectionRequestEvent used by the handler. -/
structure SelectionRequestEvent where
  requestor : Nat
  selection : Atom
  target : Atom
  property : Atom
deriving DecidableEq, Repr

/-- Fields of the synthesized xproto::SelectionNotifyEvent. -/
structure SelNotifyEvent where
  time : Nat
  requestor : Nat
  selection : Atom
  target : Atom
  property : Atom
deriving DecidableEq, Repr

/-- X11 requests emitted by the SelectionRequest handler: ChangeProperty
(mode, window, property, type, format, data length, data) and SendEvent of a
synthesized SelectionNotify to a destination window. -/
inductive X11Action
  | changeProp (mode : PropMode) (window : Nat) (property : Atom)
      (ptype : Atom) (format : Nat) (data_len : Nat) (data : PropData)
  | sendNotify (destination : Nat) (ev : SelNotifyEvent)
deriving DecidableEq, Repr

/-- The predefined X11 atom XA_ATOM, i.e. xproto::AtomEnum::ATOM. -/
def ATOM_ATOM : Atom := 4

/-- Rust `u32::to_le_bytes` on an atom value. -/
def u32le (a : Nat) : List Nat :=
  [a % 256, a / 256 % 256, a / 65536 % 256, a / 16777216 % 256]

/-- The Event::SelectionRequest arm of Clipboard::handle_event
(src/clipboard.rs).  `targets_atom` and `string_atom` are the interned
TARGETS and UTF8_STRING atoms, `selection` is the Database's current
selection.  Returns the emitted X11 requests in order: on TARGETS with no
selection, a ChangeProperty onto property 0 with format 0 and no data; on
TARGETS with a selection, a ChangeProperty of the two atoms as little-endian
32-bit words, format 32, type ATOM, onto the requested property; on
UTF8_STRING, the text payload (or "n/a"); on other targets, nothing.  In
every case the synthesized SelectionNotify echoing requestor, selection,
target and property is sent last. -/
def handleSelectionRequest (targets_atom string_atom : Atom)
    (selection : Option Clip) (sr : SelectionRequestEvent) : List X11Action :=
  (if sr.target = targets_atom then
    match selection with
    | none =>
      [.changeProp .Replace sr.requestor 0 ATOM_ATOM 0 0 (.bytes [])]
    | some clip =>
      let property := match clip.contents with
        | .Text _ => string_atom
      let data : List Atom := [targets_atom, property]
      [.changeProp .Replace sr.requestor sr.property ATOM_ATOM 32
        data.length (.bytes (data.map u32le).flatten)]
  else if sr.target = string_atom then
    let s := match selection with
      | none => "n/a"
      | some clip => match clip.contents with
        | .Text txt => txt
    [.changeProp .Replace sr.requestor sr.property string_atom 8
      s.utf8ByteSize (.str s)]
  else [])
  ++ [.sendNotify sr.requestor
        ⟨0, sr.requestor, sr.selection, sr.target, sr.property⟩]

/-- True exactly on the synthesized-SelectionNotify requests. -/
def isNotifyAction : X11Action → Bool
  | .sendNotify _ _ => true
  | _ => false

/-- The Event::XfixesSelectionNotify arm of Clipboard::handle_event: when
the new owner is not the setter window, get_targets begins a new
AwaitTargets transaction (DeleteProperty + ConvertSelection for TARGETS on a
fresh property).  `fresh` stands for the atom chosen by
get_free_getter_property; the returned Bool records whether a transaction
was initiated.  The branch is unconditional on everything but the owner:
struct Clipboard has no paused field. -/
def handleXfixesSelectionNotify (st : ClipboardState) (owner : Nat)
    (_sel : Atom) (fresh : Atom) : ClipboardState × Bool :=
  if owner ≠ st.setter then
    ({ st with get_states := st.get_states ++ [(fresh, GetState.GetTargets fresh)] },
      true)
  else (st, false)

/-- The GetText arm of the Event::SelectionNotify case of
Clipboard::handle_event: fetch the property value (bytes), lossy-UTF-8
decode it (`lossy` stands for Rust's String::from_utf8_lossy) and add the
clip to the database.  The source field is the hardcoded db::Source::Primary
of src/clipboard.rs line 383; the stored GetState::GetText carries only the
property atom, so the selection the transaction was for (`_sel`) is not
consulted. -/
def handleGetText (db : Database) (lossy : List Nat → String) (_sel : Atom)
    (value : List Nat) : Database × Option Nat :=
  db.add_clip { source := Source.Primary, contents := ClipContents.Text (lossy value) }

/-- Modelled from the spec: the `source_of(sel)` mapping of spec section 4.1
(Primary for the PRIMARY atom, Secondary for SECONDARY, Clipboard for
CLIPBOARD).  No such mapping exists anywhere in src/. -/
def spec_source_of (primary secondary clipboard sel : Atom) : Option Source :=
  if sel = primary then some Source.Primary
  else if sel = secondary then some Source.Secondary
  else if sel = clipboard then some Source.Clipboard
  else none

/-! Control plane (src/rpc.rs, src/main.rs). -/

/-- src/rpc.rs enum Message: the messages the rpc server can enqueue. -/
inductive Message
  | Show
  | Own
  | Pause
  | Start
deriving DecidableEq, Repr

/-- The event-loop state main.rs keeps besides the X11 connection: the
optional picker window (tracked here as a flag) and the selection engine. -/
structure LoopState where
  clipboard : ClipboardState
  window_open : Bool
deriving DecidableEq, Repr

/-- The rpc-command dispatch of the event loop in src/main.rs: the match on
the received command has an arm only for Some(Message::Show), which opens
the picker window if none is open; Own, Pause and Start have no arm there
and change nothing (struct Clipboard has no paused field to toggle). -/
def dispatchMessage (st : LoopState) (m : Message) : LoopState :=
  match m with
  | .Show => { st with window_open := true }
  | _ => st

/-! Picker (src/ui/window.rs). -/

/-- usize modulus. -/
def USIZE_MOD : Nat := 2 ^ 64

/-- Rust usize subtraction as compiled in release mode (two's-complement
wrap-around; debug builds panic on the same underflow). -/
def usizeSub (a b : Nat) : Nat := (a + USIZE_MOD - b) % USIZE_MOD

/-- The picker-logic fields of src/ui/window.rs struct Window (the X11
window ids, canvas and keyboard state are display resources). -/
structure WindowState where
  input : String
  shift : Bool
  ctrl : Bool
  searches : List Clip
  current_choice : Nat
deriving DecidableEq, Repr

/-- src/ui/window.rs Window::selection_down, reached from handle_event on
KeyPress Down or Ctrl-j: the guard compares current_choice against
`searches.len() - 1` computed on usize, which underflows when searches is
empty.  The redraw call only touches the canvas. -/
def Window.selection_down (w : WindowState) : WindowState :=
  if w.current_choice < usizeSub w.searches.length 1 then
    { w with current_choice := w.current_choice + 1 }
  else w

/-! Helper lemmas. -/

theorem isPref_self (l : List Char) : isPref l l = true := by
  induction l with
  | nil => rfl
  | cons a xs ih => simp [isPref, ih]

theorem isSub_self (l : List Char) : isSub l l = true := by
  cases l with
  | nil => rfl
  | cons b bs => simp [isSub, isPref_self]

theorem strContains_self (s : String) : strContains s s = true :=
  isSub_self s.data

theorem Clip.contains_self (c : Clip) : c.contains c = true := by
  cases c with
  | mk src cnt =>
    cases cnt with
    | Text t => simp [Clip.contains, ClipContents.contains, strContains_self]

theorem ClipContents.equal_self (x : ClipContents) : x.equal x = true := by
  cases x with
  | Text t => simp [ClipContents.equal]

/-- Specification of a successful add_clip: the resulting ring is some
prefix (free of contents-equal entries) with the new clip appended, the
selection is untouched, start_idx does not decrease, the MAX_CLIPS bound is
preserved, the returned logical index is start_idx plus ring length minus
one, and the next logical index never decreases. -/
theorem add_push_spec (db : Database) (c : Clip) (p : List Clip)
    (db1 : Database) (i : Nat)
    (hp : p.length ≤ db.clips.length)
    (hp2 : db.clips.length ≤ p.length + 1)
    (hany : p.any (fun e => e.contents.equal c.contents) = false)
    (h : (if (p ++ [c]).length > MAX_CLIPS then
            (({ db with clips := (p ++ [c]).tail, start_idx := db.start_idx + 1 },
              some ((p ++ [c]).tail.length + (db.start_idx + 1) - 1)) :
              Database × Option Nat)
          else ({ db with clips := p ++ [c] },
              some ((p ++ [c]).length + db.start_idx - 1))) = (db1, some i)) :
    ∃ pre, db1.clips = pre ++ [c] ∧
      pre.any (fun e => e.contents.equal c.contents) = false ∧
      db1.selection = db.selection ∧
      db.start_idx ≤ db1.start_idx ∧
      (db.clips.length ≤ MAX_CLIPS → db1.clips.length ≤ MAX_CLIPS) ∧
      i + 1 = db1.clips.length + db1.start_idx ∧
      db.clips.length + db.start_idx ≤ db1.clips.length + db1.start_idx := by
  split at h
  · next hgt =>
    cases p with
    | nil => simp [MAX_CLIPS] at hgt
    | cons q qs =>
      rw [List.cons_append, List.tail_cons] at h
      injection h with hdb hopt
      injection hopt with hi
      subst hdb
      subst hi
      rw [List.any_cons, Bool.or_eq_false_iff] at hany
      have hq : (q :: qs).length = qs.length + 1 := List.length_cons q qs
      have hqc : (qs ++ [c]).length = qs.length + 1 := by
        rw [List.length_append, List.length_singleton]
      refine ⟨qs, rfl, hany.2, rfl, ?_, ?_, ?_, ?_⟩
      · show db.start_idx ≤ db.start_idx + 1
        omega
      · intro hb
        show (qs ++ [c]).length ≤ MAX_CLIPS
        omega
      · show (qs ++ [c]).length + (db.start_idx + 1) - 1 + 1 =
          (qs ++ [c]).length + (db.start_idx + 1)
        omega
      · show db.clips.length + db.start_idx ≤
          (qs ++ [c]).length + (db.start_idx + 1)
        omega
  · next hle =>
    injection h with hdb hopt
    injection hopt with hi
    subst hdb
    subst hi
    have hpc : (p ++ [c]).length = p.length + 1 := by
      rw [List.length_append, List.length_singleton]
    rw [gt_iff_lt, not_lt] at hle
    refine ⟨p, rfl, hany, rfl, Nat.le_refl _, ?_, ?_, ?_⟩
    · intro hb
      show (p ++ [c]).length ≤ MAX_CLIPS
      omega
    · show (p ++ [c]).length + db.start_idx - 1 + 1 =
        (p ++ [c]).length + db.start_idx
      omega
    · show db.clips.length + db.start_idx ≤ (p ++ [c]).length + db.start_idx
      omega

/-- Case analysis of Database.add_clip on a call that returned some index. -/
theorem add_clip_some_spec {db : Database} {c : Clip} {db1 : Database}
    {i : Nat} (h : db.add_clip c = (db1, some i)) :
    ∃ pre, db1.clips = pre ++ [c] ∧
      pre.any (fun e => e.contents.equal c.contents) = false ∧
      db1.selection = db.selection ∧
      db.start_idx ≤ db1.start_idx ∧
      (db.clips.length ≤ MAX_CLIPS → db1.clips.length ≤ MAX_CLIPS) ∧
      i + 1 = db1.clips.length + db1.start_idx ∧
      db.clips.length + db.start_idx ≤ db1.clips.length + db1.start_idx := by
  by_cases hrep : replaceTail db.clips c
  · simp only [Database.add_clip, hrep, if_true] at h
    split at h
    · simp at h
    · next hany =>
      rw [Bool.not_eq_true] at hany
      refine add_push_spec db c db.clips.dropLast db1 i ?_ ?_ hany h <;>
        · simp only [List.length_dropLast]
          omega
  · simp only [Database.add_clip, hrep, if_false, Bool.false_eq_true] at h
    split at h
    · simp at h
    · next hany =>
      rw [Bool.not_eq_true] at hany
      exact add_push_spec db c db.clips db1 i (Nat.le_refl _)
        (Nat.le_succ _) hany h

/-- add_clip never touches the selection field. -/
theorem add_clip_selection (db : Database) (c : Clip) :
    (db.add_clip c).1.selection = db.selection := by
  simp only [Database.add_clip]
  repeat' split
  all_goals rfl

/-- A run of add_clip calls never touches the selection field. -/
theorem foldl_add_clip_selection (cs : List Clip) (db : Database) :
    (cs.foldl (fun s k => (s.add_clip k).1) db).selection = db.selection := by
  induction cs generalizing db with
  | nil => rfl
  | cons c cs ih =>
    rw [List.foldl_cons, ih, add_clip_selection]

/-- When the ring already holds the clip as its tail and the bound holds,
add_clip pops the tail and re-adds it: the database is returned unchanged
together with the tail's logical index. -/
theorem add_clip_tail_self (db1 : Database) (c : Clip) (pre : List Clip)
    (hclips : db1.clips = pre ++ [c])
    (hany : pre.any (fun e => e.contents.equal c.contents) = false)
    (hlen : db1.clips.length ≤ MAX_CLIPS) :
    db1.add_clip c = (db1, some (db1.clips.length + db1.start_idx - 1)) := by
  have hrep : replaceTail db1.clips c = true := by
    simp [replaceTail, hclips, List.getLast?_concat, Clip.contains_self]
  have hany2 :
      (db1.clips.dropLast.any fun e => e.contents.equal c.contents) = false := by
    rw [hclips, List.dropLast_concat]
    exact hany
  have hfix : db1.clips.dropLast ++ [c] = db1.clips := by
    rw [hclips, List.dropLast_concat]
  have hlen1 : ¬ (db1.clips.dropLast ++ [c]).length > MAX_CLIPS := by
    rw [hfix]; omega
  simp only [Database.add_clip, hrep, if_true]
  rw [if_neg (by simp [hany2]), if_neg hlen1, hfix]

/-! Claim theorems for the history store. -/

/-- C1 (corrected).  The original claim fails: when the duplicate is the
ring's tail, add_clip first pops the tail (every string contains itself), so
re-adding the tail clip returns Some of the same index, not None.  Amended:
(1) when the ring holds a contents-equal entry and the tail's contents are
not a substring of the new clip's, add_clip returns None and the store is
unchanged; (2) calling add_clip twice in a row with the same clip (from a
ring within the MAX_CLIPS bound) leaves the store of the first call
unchanged, returns the same logical index again, and the ring holds exactly
one entry with the clip's contents. -/
theorem add_clip_dedup_amended :
    (∀ (db : Database) (c tl : Clip),
      db.clips.getLast? = some tl →
      c.contains tl = false →
      db.clips.any (fun e => e.contents.equal c.contents) = true →
      db.add_clip c = (db, none)) ∧
    (∀ (db : Database) (c : Clip) (db1 : Database) (i : Nat),
      db.clips.length ≤ MAX_CLIPS →
      db.add_clip c = (db1, some i) →
      db1.add_clip c = (db1, some i) ∧
      (db1.clips.filter (fun e => e.contents.equal c.contents)).length = 1) := by
  constructor
  · intro db c tl hlast hcont hany
    have hrep : replaceTail db.clips c = false := by
      simp [replaceTail, hlast, hcont]
    simp only [Database.add_clip, hrep, Bool.false_eq_true, if_false, hany,
      if_true]
  · intro db c db1 i hbound h
    obtain ⟨pre, hclips, hany, -, -, hb, hi, -⟩ := add_clip_some_spec h
    have hlen : db1.clips.length ≤ MAX_CLIPS := hb hbound
    have h2 := add_clip_tail_self db1 c pre hclips hany hlen
    have hixeq : db1.clips.length + db1.start_idx - 1 = i := by omega
    rw [hixeq] at h2
    refine ⟨h2, ?_⟩
    rw [hclips, List.filter_append]
    have h3 : pre.filter (fun e => e.contents.equal c.contents) = [] := by
      rw [List.filter_eq_nil_iff]
      exact List.any_eq_false.mp hany
    rw [h3]
    simp [List.filter, ClipContents.equal_self]

/-- Witness for the amended C1 at concrete inputs: a duplicate of a non-tail
entry (tail not contained in the new clip) is rejected with the store
unchanged, and a double add of "foo" from the empty store returns Some 0
twice, retaining one "foo" entry. -/
theorem add_clip_dedup_amended_witness :
    ((⟨[⟨Source.Primary, ClipContents.Text "ab"⟩,
        ⟨Source.Primary, ClipContents.Text "xy"⟩], none, 0⟩ : Database).add_clip
        ⟨Source.Secondary, ClipContents.Text "ab"⟩ =
      ((⟨[⟨Source.Primary, ClipContents.Text "ab"⟩,
          ⟨Source.Primary, ClipContents.Text "xy"⟩], none, 0⟩ : Database), none)) ∧
    ((⟨[⟨Source.Primary, ClipContents.Text "foo"⟩], none, 0⟩ : Database).add_clip
        ⟨Source.Primary, ClipContents.Text "foo"⟩ =
      ((⟨[⟨Source.Primary, ClipContents.Text "foo"⟩], none, 0⟩ : Database), some 0) ∧
      ((⟨[⟨Source.Primary, ClipContents.Text "foo"⟩], none, 0⟩ : Database).clips.filter
          (fun e => e.contents.equal (ClipContents.Text "foo"))).length = 1) :=
  ⟨add_clip_dedup_amended.1 _ _ ⟨Source.Primary, ClipContents.Text "xy"⟩
      rfl (by decide) (by decide),
    add_clip_dedup_amended.2 Database.new ⟨Source.Primary, ClipContents.Text "foo"⟩
      _ 0 (by decide) rfl⟩

/-- C1 counterexample: after add of "foo" returns Some 0, a second add of
the very same clip returns Some 0, not None as the claim states. -/
theorem add_clip_dedup_cex :
    Database.new.add_clip ⟨Source.Primary, ClipContents.Text "foo"⟩ =
      ((⟨[⟨Source.Primary, ClipContents.Text "foo"⟩], none, 0⟩ : Database), some 0) ∧
    (⟨[⟨Source.Primary, ClipContents.Text "foo"⟩], none, 0⟩ : Database).add_clip
        ⟨Source.Primary, ClipContents.Text "foo"⟩ =
      ((⟨[⟨Source.Primary, ClipContents.Text "foo"⟩], none, 0⟩ : Database), some 0) ∧
    some 0 ≠ (none : Option Nat) :=
  ⟨rfl, rfl, by decide⟩

/-- C2 (corrected).  The original strictly-increasing claim fails: a
containment collapse pops the tail and reuses its logical index, so add of
"fst" followed by add of "fst after" returns Some 0 and then Some 0 again
(not Some 1).  Amended: for two back-to-back add_clip calls that both
return Some, the second index is greater than or equal to the first. -/
theorem add_clip_index_monotone (db : Database) (c1 c2 : Clip)
    (db1 db2 : Database) (i j : Nat)
    (h1 : db.add_clip c1 = (db1, some i))
    (h2 : db1.add_clip c2 = (db2, some j)) :
    i ≤ j := by
  obtain ⟨-, -, -, -, -, -, hi1, -⟩ := add_clip_some_spec h1
  obtain ⟨-, -, -, -, -, -, hi2, hm2⟩ := add_clip_some_spec h2
  omega

/-- Witness for C2 at the spec's own S5 inputs. -/
theorem add_clip_index_monotone_witness :
    Database.new.add_clip ⟨Source.Primary, ClipContents.Text "fst"⟩ =
      ((⟨[⟨Source.Primary, ClipContents.Text "fst"⟩], none, 0⟩ : Database), some 0) ∧
    (⟨[⟨Source.Primary, ClipContents.Text "fst"⟩], none, 0⟩ : Database).add_clip
        ⟨Source.Primary, ClipContents.Text "fst after"⟩ =
      ((⟨[⟨Source.Primary, ClipContents.Text "fst after"⟩], none, 0⟩ : Database), some 0) ∧
    (0 : Nat) ≤ 0 :=
  ⟨rfl, rfl,
    add_clip_index_monotone Database.new
      ⟨Source.Primary, ClipContents.Text "fst"⟩
      ⟨Source.Primary, ClipContents.Text "fst after"⟩
      ⟨[⟨Source.Primary, ClipContents.Text "fst"⟩], none, 0⟩
      ⟨[⟨Source.Primary, ClipContents.Text "fst after"⟩], none, 0⟩
      0 0 rfl rfl⟩

/-- C2 counterexample: the S5 sequence returns Some 0 twice: the indices in
the Some cases are 0, 0, which is not strictly increasing, and the second
is not Some 1. -/
theorem add_clip_index_monotone_cex :
    (Database.new.add_clip ⟨Source.Primary, ClipContents.Text "fst"⟩).2 = some 0 ∧
    ((Database.new.add_clip ⟨Source.Primary, ClipContents.Text "fst"⟩).1.add_clip
        ⟨Source.Primary, ClipContents.Text "fst after"⟩).2 = some 0 ∧
    ¬ ((0 : Nat) < 0) :=
  ⟨rfl, rfl, by omega⟩

/-- C9 (confirmed).  A successful select copies the clip at the logical
index into the selection by value; any later run of add_clip calls —
however many evictions they cause — leaves the selection at that same clip,
and add_clip never modifies the selection field at all. -/
theorem selection_persistence (db : Database) (idx : Nat) (db1 : Database)
    (cs : List Clip) (h : db.select idx = (db1, true)) :
    (∃ c, db.atIdx idx = some c ∧ db1.selection = some c ∧
      (cs.foldl (fun s k => (s.add_clip k).1) db1).selection = some c) ∧
    (∀ (s : Database) (k : Clip), (s.add_clip k).1.selection = s.selection) := by
  constructor
  · unfold Database.select at h
    cases hat : db.atIdx idx with
    | none =>
      rw [hat] at h
      injection h with h1 h2
      exact Bool.noConfusion h2
    | some c =>
      rw [hat] at h
      injection h with h1 h2
      refine ⟨c, rfl, ?_, ?_⟩
      · rw [← h1]
      · rw [foldl_add_clip_selection, ← h1]
  · exact add_clip_selection

/-- Witness for C9: select the only clip, then add two more clips; the
selection still returns the selected clip. -/
theorem selection_persistence_witness :
    (∃ c, (⟨[⟨Source.Primary, ClipContents.Text "A"⟩], none, 0⟩ : Database).atIdx 0 =
        some c ∧
      (⟨[⟨Source.Primary, ClipContents.Text "A"⟩],
        some ⟨Source.Primary, ClipContents.Text "A"⟩, 0⟩ : Database).selection = some c ∧
      ([⟨Source.Primary, ClipContents.Text "B"⟩,
        ⟨Source.Primary, ClipContents.Text "C"⟩].foldl
          (fun s k => (s.add_clip k).1)
          (⟨[⟨Source.Primary, ClipContents.Text "A"⟩],
            some ⟨Source.Primary, ClipContents.Text "A"⟩, 0⟩ : Database)).selection =
        some c) ∧
    (∀ (s : Database) (k : Clip), (s.add_clip k).1.selection = s.selection) :=
  selection_persistence _ 0 _
    [⟨Source.Primary, ClipContents.Text "B"⟩, ⟨Source.Primary, ClipContents.Text "C"⟩]
    rfl

/-! Claim theorems for the selection engine, control plane and picker. -/

/-- C3 (confirmed).  Serving a TARGETS request while a selection is present
emits exactly one ChangeProperty: mode REPLACE, onto the requestor's
requested property, type ATOM, format 32, two entries, whose bytes are the
TARGETS atom followed by the UTF8_STRING atom, each as little-endian 32-bit
words — followed by the synthesized SelectionNotify. -/
theorem targets_reply (t s : Atom) (clip : Clip) (sr : SelectionRequestEvent)
    (ht : sr.target = t) :
    handleSelectionRequest t s (some clip) sr =
      [X11Action.changeProp PropMode.Replace sr.requestor sr.property
        ATOM_ATOM 32 2 (PropData.bytes (u32le t ++ u32le s)),
       X11Action.sendNotify sr.requestor
        ⟨0, sr.requestor, sr.selection, sr.target, sr.property⟩] := by
  cases clip with
  | mk src cnt =>
    cases cnt with
    | Text txt => simp [handleSelectionRequest, ht]

/-- Witness for C3 at concrete atoms and request. -/
theorem targets_reply_witness :
    handleSelectionRequest 1 2
        (some ⟨Source.Primary, ClipContents.Text "hello"⟩) ⟨5, 3, 1, 7⟩ =
      [X11Action.changeProp PropMode.Replace 5 7 ATOM_ATOM 32 2
        (PropData.bytes (u32le 1 ++ u32le 2)),
       X11Action.sendNotify 5 ⟨0, 5, 3, 1, 7⟩] :=
  targets_reply 1 2 ⟨Source.Primary, ClipContents.Text "hello"⟩ ⟨5, 3, 1, 7⟩ rfl

/-- C4 (confirmed).  Whatever the request's target — TARGETS, UTF8_STRING
or anything else — and whatever the current selection, the handler emits
exactly one synthesized SelectionNotify, sent to the requestor, echoing the
request's requestor, selection, target and property fields. -/
theorem notify_always_sent (t s : Atom) (sel : Option Clip)
    (sr : SelectionRequestEvent) :
    (handleSelectionRequest t s sel sr).filter isNotifyAction =
      [X11Action.sendNotify sr.requestor
        ⟨0, sr.requestor, sr.selection, sr.target, sr.property⟩] := by
  unfold handleSelectionRequest
  rw [List.filter_append]
  have hhead : ∀ (ac : List X11Action), (∀ a ∈ ac, isNotifyAction a = false) →
      ac.filter isNotifyAction = [] := by
    intro ac hac
    rw [List.filter_eq_nil_iff]
    intro a ha
    simp [hac a ha]
  rw [hhead _ ?_, List.nil_append, List.filter_cons]
  · simp [isNotifyAction]
  · intro a ha
    split at ha
    · rcases sel with - | ⟨src, ⟨txt⟩⟩
      · simp only [List.mem_singleton] at ha
        subst ha
        rfl
      · simp only [List.mem_singleton] at ha
        subst ha
        rfl
    · split at ha
      · simp only [List.mem_singleton] at ha
        subst ha
        rfl
      · simp at ha

/-- C5 (corrected).  With no current selection, the code answers a TARGETS
request by writing a zero-length value of type ATOM but with format 0, onto
property atom 0 of the requestor — not format 32 and not the requested
property as the claim states.  Amended: the emitted ChangeProperty is
REPLACE, window = requestor, property = 0, type = ATOM, format = 0,
length 0, empty data, followed by the synthesized SelectionNotify. -/
theorem empty_targets_reply (t s : Atom) (sr : SelectionRequestEvent)
    (ht : sr.target = t) :
    handleSelectionRequest t s none sr =
      [X11Action.changeProp PropMode.Replace sr.requestor 0 ATOM_ATOM 0 0
        (PropData.bytes []),
       X11Action.sendNotify sr.requestor
        ⟨0, sr.requestor, sr.selection, sr.target, sr.property⟩] := by
  simp [handleSelectionRequest, ht]

/-- Witness for the amended C5 at concrete atoms and request. -/
theorem empty_targets_reply_witness :
    handleSelectionRequest 1 2 none ⟨5, 3, 1, 7⟩ =
      [X11Action.changeProp PropMode.Replace 5 0 ATOM_ATOM 0 0
        (PropData.bytes []),
       X11Action.sendNotify 5 ⟨0, 5, 3, 1, 7⟩] :=
  empty_targets_reply 1 2 ⟨5, 3, 1, 7⟩ rfl

/-- C5 counterexample: for the concrete TARGETS request on property 7 with
no selection, the property write the code emits (property 0, format 0) is
not the write the claim describes (requested property 7, format 32). -/
theorem empty_targets_cex :
    handleSelectionRequest 1 2 none ⟨5, 3, 1, 7⟩ =
      [X11Action.changeProp PropMode.Replace 5 0 ATOM_ATOM 0 0
        (PropData.bytes []),
       X11Action.sendNotify 5 ⟨0, 5, 3, 1, 7⟩] ∧
    X11Action.changeProp PropMode.Replace 5 0 ATOM_ATOM 0 0
        (PropData.bytes []) ≠
      X11Action.changeProp PropMode.Replace 5 7 ATOM_ATOM 32 0
        (PropData.bytes []) := by
  refine ⟨?_, by decide⟩
  simp [handleSelectionRequest]

/-- C6 (corrected).  The capture path hardcodes db::Source::Primary: the
clip appended on a completed AwaitText transaction has source Primary no
matter which selection the transaction was for (the stored GetText state
does not even carry the selection), and contents equal to the lossy-UTF-8
decode of the fetched value.  The claim's source_of(sel) tagging does not
exist in the code. -/
theorem capture_source_amended (db : Database) (lossy : List Nat → String)
    (sel : Atom) (value : List Nat) (db1 : Database) (i : Nat)
    (h : handleGetText db lossy sel value = (db1, some i)) :
    db1.clips.getLast? =
      some ⟨Source.Primary, ClipContents.Text (lossy value)⟩ ∧
    (∀ sel2 : Atom,
      handleGetText db lossy sel2 value = handleGetText db lossy sel value) := by
  constructor
  · unfold handleGetText at h
    obtain ⟨pre, hclips, -⟩ := add_clip_some_spec h
    rw [hclips, List.getLast?_concat]
  · intro sel2
    rfl

/-- Witness for the amended C6: capture on the empty store appends a
Primary-tagged clip with the decoded text. -/
theorem capture_source_amended_witness :
    (⟨[⟨Source.Primary, ClipContents.Text "txt"⟩], none, 0⟩ : Database).clips.getLast? =
      some ⟨Source.Primary, ClipContents.Text ((fun _ => "txt") ([] : List Nat))⟩ ∧
    (∀ sel2 : Atom,
      handleGetText Database.new (fun _ => "txt") sel2 [] =
        handleGetText Database.new (fun _ => "txt") 3 []) :=
  capture_source_amended Database.new (fun _ => "txt") 3 []
    ⟨[⟨Source.Primary, ClipContents.Text "txt"⟩], none, 0⟩ 0 rfl

/-- C6 counterexample: completing a capture for selection atom 3 — the
CLIPBOARD atom under the interning 1 = PRIMARY, 2 = SECONDARY,
3 = CLIPBOARD — stores a clip whose source is Primary, while the spec's
source_of maps that selection to Clipboard. -/
theorem capture_source_cex :
    (handleGetText Database.new (fun _ => "txt") 3 []).1.clips =
      [⟨Source.Primary, ClipContents.Text "txt"⟩] ∧
    spec_source_of 1 2 3 3 = some Source.Clipboard ∧
    Source.Primary ≠ Source.Clipboard :=
  ⟨rfl, rfl, by decide⟩

/-- C7 (code bug).  The claim describes a paused flag toggled by the pause
and start control verbs; src/rpc.rs declares those verbs and sends
Message::Pause / Message::Start, but the event loop in src/main.rs has no
arm for them and struct Clipboard has no paused field, so after a Pause
message an XFixesSelectionNotify with owner different from the setter still
initiates a new AwaitTargets transaction. -/
theorem pause_unimplemented :
    dispatchMessage ⟨⟨10, 11, []⟩, false⟩ Message.Pause = ⟨⟨10, 11, []⟩, false⟩ ∧
    handleXfixesSelectionNotify ⟨10, 11, []⟩ 12 1 50 =
      (⟨10, 11, [(50, GetState.GetTargets 50)]⟩, true) := by
  refine ⟨rfl, ?_⟩
  simp [handleXfixesSelectionNotify]

/-- C10 (code bug).  With an empty search-result list the guard of
selection_down evaluates searches.len() - 1 on usize, which underflows:
release builds wrap so the comparison 0 < 2^64 - 1 passes and
current_choice becomes 1 — neither a valid index into the empty list nor 0
(debug builds panic on the same subtraction). -/
theorem selection_down_empty_underflow :
    (Window.selection_down ⟨"", false, false, [], 0⟩).current_choice = 1 ∧
    ¬ (1 < ([] : List Clip).length) ∧ (1 : Nat) ≠ 0 := by
  refine ⟨?_, by decide, by decide⟩
  simp [Window.selection_down, usizeSub, USIZE_MOD]

/-! Sorting lemmas for the search claim. -/

theorem mem_insertByScore (x z : Nat × Int) (l : List (Nat × Int)) :
    z ∈ insertByScore x l ↔ z = x ∨ z ∈ l := by
  induction l with
  | nil => simp [insertByScore]
  | cons y ys ih =>
    unfold insertByScore
    by_cases hc : x.2 ≤ y.2
    · rw [if_pos hc]
      simp [List.mem_cons]
    · rw [if_neg hc]
      simp only [List.mem_cons, ih]
      tauto

theorem pairwise_insertByScore (x : Nat × Int) (l : List (Nat × Int))
    (hmem : ∀ y ∈ l, x.1 < y.1) (hp : l.Pairwise ascRank) :
    (insertByScore x l).Pairwise ascRank := by
  induction l with
  | nil => simp [insertByScore, ascRank]
  | cons y ys ih =>
    rw [List.pairwise_cons] at hp
    obtain ⟨hy, hys⟩ := hp
    unfold insertByScore
    by_cases hc : x.2 ≤ y.2
    · rw [if_pos hc, List.pairwise_cons]
      constructor
      · intro w hw
        rcases List.mem_cons.mp hw with hw | hw
        · subst hw
          rcases lt_or_eq_of_le hc with h | h
          · exact Or.inl h
          · exact Or.inr ⟨h, hmem w (List.mem_cons_self w ys)⟩
        · rcases hy w hw with hlt | ⟨heq, -⟩
          · exact Or.inl (lt_of_le_of_lt hc hlt)
          · have hxw : x.2 ≤ w.2 := heq ▸ hc
            rcases lt_or_eq_of_le hxw with h | h
            · exact Or.inl h
            · exact Or.inr ⟨h, hmem w (List.mem_cons_of_mem y hw)⟩
      · rw [List.pairwise_cons]
        exact ⟨hy, hys⟩
    · rw [if_neg hc, List.pairwise_cons]
      constructor
      · intro w hw
        rcases (mem_insertByScore x w ys).mp hw with hw | hw
        · subst hw
          exact Or.inl (not_le.mp hc)
        · exact hy w hw
      · exact ih (fun q hq => hmem q (List.mem_cons_of_mem y hq)) hys

theorem mem_sortByScore (z : Nat × Int) (l : List (Nat × Int)) :
    z ∈ sortByScore l ↔ z ∈ l := by
  induction l with
  | nil => simp [sortByScore]
  | cons x xs ih =>
    unfold sortByScore
    rw [mem_insertByScore, ih, List.mem_cons]

theorem sortByScore_pairwise (l : List (Nat × Int))
    (h : l.Pairwise (fun a b => a.1 < b.1)) :
    (sortByScore l).Pairwise ascRank := by
  induction l with
  | nil => simp [sortByScore]
  | cons x xs ih =>
    rw [List.pairwise_cons] at h
    unfold sortByScore
    exact pairwise_insertByScore x (sortByScore xs)
      (fun y hy => h.1 y ((mem_sortByScore y xs).mp hy)) (ih h.2)

theorem pairwise_fst_lt_enumFrom {α : Type _} (n : Nat) (l : List α) :
    (l.enumFrom n).Pairwise (fun a b => a.1 < b.1) := by
  induction l generalizing n with
  | nil => simp
  | cons x xs ih =>
    rw [List.enumFrom_cons, List.pairwise_cons]
    exact ⟨fun p hp =>
      lt_of_lt_of_le (Nat.lt_succ_self n) (List.le_fst_of_mem_enumFrom hp),
      ih (n + 1)⟩

theorem pairwise_fst_lt_enum {α : Type _} (l : List α) :
    l.enum.Pairwise (fun a b => a.1 < b.1) :=
  pairwise_fst_lt_enumFrom 0 l

/-- Characterization of one scored entry of Database::search's filter_map. -/
theorem mem_scored_spec {fm : String → String → Option Int} {pattern : String}
    {p : Nat × Clip} {b : Nat × Int}
    (hb : (clipScore fm pattern p.2).map (fun score => (p.1, score)) = some b) :
    b.1 = p.1 ∧ clipScore fm pattern p.2 = some b.2 := by
  cases hcs : clipScore fm pattern p.2 with
  | none =>
    rw [hcs] at hb
    simp at hb
  | some sc =>
    rw [hcs] at hb
    simp only [Option.map_some', Option.some.injEq] at hb
    subst hb
    exact ⟨rfl, rfl⟩

/-- Every ranked pair points at a real ring entry carrying that score. -/
theorem searchRanked_mem_spec (db : Database)
    (fm : String → String → Option Int) (pattern : String) (p : Nat × Int)
    (hp : p ∈ db.searchRanked fm pattern) :
    ∃ c, db.clips.get? p.1 = some c ∧ clipScore fm pattern c = some p.2 := by
  unfold Database.searchRanked at hp
  rw [mem_sortByScore] at hp
  obtain ⟨q, hq, hfq⟩ := List.mem_filterMap.mp hp
  obtain ⟨hb1, hb2⟩ := mem_scored_spec hfq
  obtain ⟨qi, qc⟩ := q
  have hq2 : db.clips[qi]? = some qc := List.mk_mem_enum_iff_getElem?.mp hq
  refine ⟨qc, ?_, hb2⟩
  rw [List.get?_eq_getElem?, hb1]
  exact hq2

/-- C8 (confirmed).  search returns at most mx clips; it equals the ranked
(index, score) list reversed, truncated to mx, mapped back to the ring; the
truncated ranked list is pairwise ordered by strictly descending score with
ties broken by the larger (newer) ring position first; its entries carry
the genuine fuzzy score of the clip they point at; and every returned clip
has a fuzzy match for the pattern.  The fuzzy scorer is the external
fuzzy_matcher crate, modelled as the parameter fm. -/
theorem search_spec (db : Database) (fm : String → String → Option Int)
    (pattern : String) (mx : Nat) :
    (db.search fm pattern mx).length ≤ mx ∧
    db.search fm pattern mx =
      ((db.searchRanked fm pattern).reverse.take mx).filterMap
        (fun p => db.clips.get? p.1) ∧
    ((db.searchRanked fm pattern).reverse.take mx).Pairwise
      (fun x y => ascRank y x) ∧
    (∀ p ∈ (db.searchRanked fm pattern).reverse.take mx,
      ∃ c, db.clips.get? p.1 = some c ∧ clipScore fm pattern c = some p.2) ∧
    (∀ c ∈ db.search fm pattern mx, ∃ sc, clipScore fm pattern c = some sc) := by
  have hrank : (db.searchRanked fm pattern).Pairwise ascRank := by
    unfold Database.searchRanked
    apply sortByScore_pairwise
    rw [List.pairwise_filterMap]
    apply List.Pairwise.imp ?_ (pairwise_fst_lt_enum db.clips)
    intro a b hab x hx y hy
    rw [Option.mem_def] at hx hy
    have h1 := (mem_scored_spec hx).1
    have h2 := (mem_scored_spec hy).1
    rw [h1, h2]
    exact hab
  have hmemtk : ∀ p ∈ (db.searchRanked fm pattern).reverse.take mx,
      p ∈ db.searchRanked fm pattern := by
    intro p hp
    have h1 := (List.take_sublist mx _).subset hp
    rw [List.mem_reverse] at h1
    exact h1
  refine ⟨?_, rfl, ?_, ?_, ?_⟩
  · unfold Database.search
    calc (((db.searchRanked fm pattern).reverse.take mx).filterMap
          (fun p => db.clips.get? p.1)).length
        ≤ ((db.searchRanked fm pattern).reverse.take mx).length :=
          List.length_filterMap_le _ _
      _ ≤ mx := by
          rw [List.length_take]
          exact min_le_left _ _
  · exact List.Pairwise.sublist (List.take_sublist mx _)
      (List.pairwise_reverse.mpr hrank)
  · intro p hp
    exact searchRanked_mem_spec db fm pattern p (hmemtk p hp)
  · intro c hc
    unfold Database.search at hc
    obtain ⟨p, hp, hfp⟩ := List.mem_filterMap.mp hc
    obtain ⟨c2, hc2, hs2⟩ := searchRanked_mem_spec db fm pattern p (hmemtk p hp)
    have hcc : c2 = c := by
      rw [hfp] at hc2
      injection hc2 with hcc
      exact hcc.symm
    rw [hcc] at hs2
    exact ⟨p.2, hs2⟩

end RepeatSpec
